import Mathlib

/-!
Verification development for the goose schema-migration engine.

The Go sources are embedded shallowly: each Go function in scope becomes a
Lean function over an explicit database-state type; machine `int64` versions
become `Int` (version arithmetic never overflows in the source: versions come
from filenames and ledger rows); fallible Go calls become `Except`/`Option`
results; the event channel becomes an explicit trace of channel operations.

Components of the repository that are not part of the provided sources but
are required by them (the `Migrations` sequence lookups, the dialect contract,
`GetDBVersion`/`EnsureDBVersion`, `CollectMigrations`) are modelled from the
specification and marked as such in their doc comments.
-/

namespace Goose

/-- A ledger row (Go `MigrationRecord`): version id, applied flag and
timestamp.  The ledger list is kept newest-first, matching the dialect
query's most-recent-first row order. -/
structure MigrationRecord where
  versionID : Int
  isApplied : Bool
  tstamp : Nat
deriving Repr, DecidableEq

/-- A migration unit (Go `Migration`).  The filesystem/parsing layer is
abstracted: a unit carries the statement lists the SQL mini-language parser
of the source would produce for each direction, together with the
transactional flag, mirroring the arguments `runSQLMigration` receives. -/
structure Migration where
  version : Int
  source : String
  upStatements : List String
  downStatements : List String
  useTx : Bool
  noVersioning : Bool
deriving Repr, DecidableEq

/-- Construct a plain versioned unit. -/
def mkMigration (v : Int) (src : String) (ups downs : List String) : Migration :=
  { version := v, source := src, upStatements := ups, downStatements := downs,
    useTx := true, noVersioning := false }

abbrev Migrations := List Migration

/-- The database state: whether the ledger table exists, the ledger rows
(newest first), the data-statement effect trail, and the engine's per-unit
OK/EMPTY log (one entry `(version, direction)` per successfully run unit,
mirroring the `p.log.Println("OK …"/"EMPTY …")` line in `migration.go`). -/
structure DB where
  tableExists : Bool
  ledger : List MigrationRecord
  data : List String
  oklog : List (Int × Bool)
deriving Repr, DecidableEq

/-- Events, a tagged union over the event payload shapes of the source
(`VersionCountEvent`, `VersionApplyEvent`, `StatusEvent`). -/
inductive Ev
  | versionCount (version : Int) (source : String) (totalLeft : Int)
  | versionApply (fromV : Int) (fromSrc : String) (toV : Int) (toSrc : String)
      (missing applied versioned down : Bool)
  | statusEv (source : String) (version : Int) (versioned : Bool) (appliedAt : Nat)
deriving Repr, DecidableEq

/-- Operations performed on the caller-supplied events channel. -/
inductive ChanOp
  | send (e : Ev)
  | close
deriving Repr, DecidableEq

abbrev Trace := List ChanOp

/-- The option record built by `applyOptions`. -/
structure Options where
  allowMissing : Bool := false
  applyUpByOne : Bool := false
  noVersioning : Bool := false
  noOutput : Bool := false
  hasEventsChannel : Bool := false
  dontCloseChannel : Bool := false
  sequentialVersionsOnly : Bool := false
deriving Repr, DecidableEq

/-- `options.send`: emits the event on the channel when one is present. -/
def Options.sendEv (o : Options) (e : Ev) : Trace :=
  if o.hasEventsChannel then [ChanOp.send e] else []

/-- `options.shouldCloseEventsChannel`. -/
def Options.shouldCloseEventsChannel (o : Options) : Bool :=
  o.hasEventsChannel && !o.dontCloseChannel

/-- The trace contributed by a `close(options.eventsChannel)` call. -/
def Options.closeOp (o : Options) : Trace :=
  if o.shouldCloseEventsChannel then [ChanOp.close] else []

/-- The error values the engine surfaces. -/
inductive GooseErr
  | missingMigrationsErr (ms : List (Int × String))
  | noNextVersion
  | noCurrentMigration (v : Int)
  | noPreviousMigration (v : Int)
  | missingMismatch (current expected : Int)
  | sqlExec (stmt : String)
  | insertVersionFailed
  | deleteVersionFailed
  | timestampVersionsExist (ms : Migrations)
  | indexOutOfRange
  | outOfFuel
deriving Repr, DecidableEq

/-! ## Sequence operations

The `Migrations` sequence type's lookup operations are not part of the
provided sources (only their callers are); they are modelled from the
specification, section 4.1. -/

/-- Modelled from the spec: `Next(current)` returns the unit with the
smallest version strictly greater than `current`, and fails with the
`NoNextVersion` signal (here: `none`) when none exists. -/
def Migrations.NextAfter (ms : Migrations) (current : Int) : Option Migration :=
  ms.foldl (fun acc m =>
    if m.version ≤ current then acc
    else match acc with
      | none => some m
      | some b => if m.version < b.version then some m else acc) none

/-- Modelled from the spec: `Previous(current)` returns the unit with the
largest version strictly less than `current`, failing analogously. -/
def Migrations.PreviousBefore (ms : Migrations) (current : Int) : Option Migration :=
  ms.foldl (fun acc m =>
    if current ≤ m.version then acc
    else match acc with
      | none => some m
      | some b => if b.version < m.version then some m else acc) none

/-- Modelled from the spec: `Current(v)` is the exact-match lookup. -/
def Migrations.CurrentAt (ms : Migrations) (v : Int) : Option Migration :=
  ms.find? (fun m => m.version == v)

/-- Modelled from the spec: `Last()` returns the last element of the
(ascending-sorted) sequence, failing when the sequence is empty. -/
def Migrations.LastM (ms : Migrations) : Option Migration :=
  ms.getLast?

/-- Modelled from the spec: the number of collected units still to apply
after `current` (used only for the `TotalVersionsLeft` event field). -/
def Migrations.NumberOfMigrations (ms : Migrations) (current : Int) (_byOne : Bool) : Int :=
  (ms.filter (fun m => current < m.version)).length

/-- Modelled from the spec: the number of collected units a down-to run from
`fromV` down to `toV` still has to revert (used only for the
`TotalVersionsLeft` event field). -/
def Migrations.NumberOfMigrationsTo (ms : Migrations) (fromV toV : Int) : Int :=
  (ms.filter (fun m => toV < m.version ∧ m.version ≤ fromV)).length

/-- Modelled from the spec (strict-sequential mode): the sub-sequence of
units whose version numbers look timestamp-derived rather than small
sequential integers.  The cutoff mirrors a `YYYYMMDDhhmmss` timestamp. -/
def timestampCutoff : Int := 20000101000000

/-- Modelled from the spec: partition query returning the timestamp-numbered
units of a sequence. -/
def Migrations.timestamped (ms : Migrations) : Migrations :=
  ms.filter (fun m => timestampCutoff ≤ m.version)

/-- Modelled from the spec: `CollectMigrations` produces the sequence of
every unit whose version falls in `[low, high]`, in ascending version
order.  The directory scan itself is abstracted into the ambient sequence
`all` (assumed sorted, as the collector sorts); the range filter is what the
reconciliation engine relies on. -/
def CollectMigrations (all : Migrations) (low high : Int) : Migrations :=
  all.filter (fun m => low ≤ m.version ∧ m.version ≤ high)

/-- Go `minVersion` (collection lower bound). -/
def minVersion : Int := 0

/-- Go `maxVersion` (collection upper bound, `math.MaxInt64`). -/
def maxVersion : Int := (2:Int)^63 - 1

/-- The ascending-by-version comparison used by the source's
`sort.SliceStable` calls. -/
def versionLE (a b : Migration) : Prop := a.version ≤ b.version

instance : DecidableRel versionLE := fun a b => inferInstanceAs (Decidable (a.version ≤ b.version))

instance : IsTotal Migration versionLE := ⟨fun a b => le_total a.version b.version⟩

instance : IsTrans Migration versionLE := ⟨fun _ _ _ h h' => le_trans h h'⟩

/-- Stable ascending sort by version (Go `sort.SliceStable` with the
`Version` comparison). -/
def sortByVersion (ms : Migrations) : Migrations :=
  ms.insertionSort versionLE

/-! ## Ledger reads (dialect contract, modelled from the spec) -/

/-- Modelled from the spec: the current database version.  The ledger is
append-only and "the most recent row for a given version is authoritative"
(spec section 3); the current version is the version of the most recent row
whose authoritative state is applied — the reading under which the
reconciliation algorithm of sections 4.5/8 proceeds past its per-apply
consistency check — and `0` ("no migrations applied") when no row
qualifies. -/
def getDBVersionRows : List MigrationRecord → List Int → Int
  | [], _ => 0
  | r :: rest, skip =>
    if r.versionID ∈ skip then getDBVersionRows rest skip
    else if r.isApplied then r.versionID
    else getDBVersionRows rest (r.versionID :: skip)

/-- Modelled from the spec: `GetDBVersion` reads the current version from
the ledger (see `getDBVersionRows`). -/
def GetDBVersion (db : DB) : Int :=
  getDBVersionRows db.ledger []

/-- Modelled from the spec: `createVersionTable` — the dialect's ledger
bootstrap.  Creates the ledger table; the freshly created ledger records the
initial state "no migrations applied", i.e. current version `0`, as its
bootstrap row. -/
def createVersionTable (db : DB) : DB :=
  { db with tableExists := true,
            ledger := [{ versionID := 0, isApplied := true, tstamp := 1 }] }

/-- Modelled from the spec: `EnsureDBVersion` — creates the ledger table if
it does not yet exist (first-run bootstrap) and returns the current
version. -/
def EnsureDBVersion (db : DB) : Int × DB :=
  if db.tableExists then (GetDBVersion db, db)
  else (0, createVersionTable db)

/-- `listAllDBVersions` (part_001): reads every ledger row (the dialect
query; it fails exactly when the table is absent, in which case the table is
created and an empty list is returned, mirroring
`return nil, createVersionTable(...)` with a nil creation error) and returns
one unit per row, sorted ascending by version. -/
def listAllDBVersions (db : DB) : Migrations × DB :=
  if db.tableExists then
    (sortByVersion (db.ledger.map (fun r => mkMigration r.versionID "" [] [])), db)
  else ([], createVersionTable db)

/-! ## Statement execution (execution engine, part_003) -/

/-- The ledger-insert statement issued through `p.dialect.insertVersionSQL()`. -/
def insertVersionStmt (v : Int) : String := "goose-insert-version " ++ toString v

/-- The ledger-delete statement issued through `p.dialect.deleteVersionSQL()`. -/
def deleteVersionStmt (v : Int) : String := "goose-delete-version " ++ toString v

/-- One data statement executed against the connection (`db.Exec`/`tx.Exec`).
The backend is abstracted by the oracle `fails`: a statement the backend
rejects yields `none`, otherwise the statement is appended to the data
trail. -/
def execData (fails : String → Bool) (db : DB) (q : String) : Option DB :=
  if fails q then none else some { db with data := db.data ++ [q] }

/-- The ledger-row insert (`insertVersionSQL`): appends a new applied row
for `v` (append-only ledger, newest first). -/
def execInsertVersion (fails : String → Bool) (db : DB) (v : Int) : Option DB :=
  if fails (insertVersionStmt v) then none
  else some { db with ledger := { versionID := v, isApplied := true, tstamp := 1 } :: db.ledger }

/-- The ledger-row delete (`deleteVersionSQL`): removes the rows of `v`. -/
def execDeleteVersion (fails : String → Bool) (db : DB) (v : Int) : Option DB :=
  if fails (deleteVersionStmt v) then none
  else some { db with ledger := db.ledger.filter (fun r => r.versionID ≠ v) }

/-- Executes the statement list in order; on failure reports the failing
statement. -/
def execStatements (fails : String → Bool) (db : DB) : List String → Except String DB
  | [] => .ok db
  | q :: rest =>
    match execData fails db q with
    | none => .error q
    | some db' => execStatements fails db' rest

/-- `runSQLMigration` (part_003): runs one parsed SQL migration.  In the
transactional branch the statements run against a transaction view of the
state; any failure rolls the transaction back (the error result carries the
caller's unchanged state), and for a versioned unit the ledger row
insert/delete runs inside the same transaction before commit.  In the
non-transactional branch statements run directly on the connection, so a
failure leaves the partial effects (the error carries the partially updated
state). -/
def runSQLMigration (fails : String → Bool) (db : DB) (statements : List String)
    (useTx : Bool) (v : Int) (direction : Bool) (noVers : Bool) :
    Except (GooseErr × DB) DB :=
  if useTx then
    -- TRANSACTION.
    match execStatements fails db statements with
    | .error q => .error (.sqlExec q, db)          -- tx.Rollback()
    | .ok tx =>
      if !noVers then
        if direction then
          match execInsertVersion fails tx v with
          | none => .error (.insertVersionFailed, db)   -- tx.Rollback()
          | some tx' => .ok tx'                         -- tx.Commit()
        else
          match execDeleteVersion fails tx v with
          | none => .error (.deleteVersionFailed, db)   -- tx.Rollback()
          | some tx' => .ok tx'                         -- tx.Commit()
      else .ok tx                                       -- tx.Commit()
  else
    -- NO TRANSACTION.
    match execStatements fails db statements with
    | .error q => .error (.sqlExec q, db)
    | .ok db1 =>
      if !noVers then
        if direction then
          match execInsertVersion fails db1 v with
          | none => .error (.insertVersionFailed, db1)
          | some db2 => .ok db2
        else
          match execDeleteVersion fails db1 v with
          | none => .error (.deleteVersionFailed, db1)
          | some db2 => .ok db2
      else .ok db1

/-- `Migration.run`/`parseAndRunSQLMigration` (migration.go) for a SQL
unit in a given direction: runs `runSQLMigration` on the parsed statements
and, on success, writes the per-unit OK/EMPTY log line. -/
def Migration.runDir (fails : String → Bool) (m : Migration) (db : DB)
    (direction : Bool) : Except (GooseErr × DB) DB :=
  let statements := if direction then m.upStatements else m.downStatements
  match runSQLMigration fails db statements m.useTx m.version direction m.noVersioning with
  | .error e => .error e
  | .ok db' => .ok { db' with oklog := db'.oklog ++ [(m.version, direction)] }

/-- `Migration.UpWithProvider`. -/
def Migration.UpWithProvider (fails : String → Bool) (m : Migration) (db : DB) :
    Except (GooseErr × DB) DB :=
  m.runDir fails db true

/-- `Migration.DownWithProvider`. -/
def Migration.DownWithProvider (fails : String → Bool) (m : Migration) (db : DB) :
    Except (GooseErr × DB) DB :=
  m.runDir fails db false

/-! ## Reconciliation engine (part_001, down.go, part_000, status.go) -/

/-- The result of an engine call: the channel-operation trace it produced,
the final database state, and the error it returned (`none` = nil). -/
structure R where
  trace : Trace
  db : DB
  err : Option GooseErr
deriving Repr, DecidableEq

/-- How a Go `for` loop body was left: it ran to completion, or an early
`return nil`, or an early `return err`. -/
inductive LoopExit
  | fallthrough
  | earlyOk
  | earlyErr (e : GooseErr)
deriving Repr, DecidableEq

/-- `findMissingMigrations` (part_001): a migration is missing if its
version is less than the version of the last ledger-known entry and is not
itself ledger-known.  The Go function reads `knownMigrations[len-1]`
unguarded; an empty known list is an out-of-bounds access (a runtime
panic), modelled by `none`. -/
def findMissingMigrations (knownMigrations newMigrations : Migrations) :
    Option Migrations :=
  match knownMigrations.getLast? with
  | none => none
  | some lastK =>
    let existing := knownMigrations.map (·.version)
    some (sortByVersion (newMigrations.filter
      (fun m => !(existing.contains m.version) && decide (m.version < lastK.version))))

/-- `MissingMigrationsErrFromMigrations` (errors.go): the structured batch
error enumerating every missing version with its source. -/
def MissingMigrationsErrFromMigrations (migrations : Migrations) : GooseErr :=
  .missingMigrationsErr (migrations.map (fun m => (m.version, m.source)))

/-- The placeholder unit `Migration{Version: -1, Source: ""}`. -/
def noCurrentMig : Migration := mkMigration (-1) "" [] []

/-- The loop of `upToNoVersioning` (part_001 622-647): applies each unit in
order, stopping before the first unit above the target version; each unit is
applied with `noVersioning` set, bracketed by before/after apply events
(whose `From` fields stay at the placeholder, as in the source). -/
def upToNoVersioningLoop (fails : String → Bool) (opt : Options) (version : Int)
    (finalV : Int) (db : DB) : Migrations → Int × R
  | [] => (finalV, ⟨[], db, none⟩)
  | current :: rest =>
    if version < current.version then (finalV, ⟨[], db, none⟩)
    else
      let m := { current with noVersioning := true }
      let before := opt.sendEv (.versionApply noCurrentMig.version noCurrentMig.source
        current.version current.source false false false false)
      match m.UpWithProvider fails db with
      | .error (e, db') => (-1, ⟨before, db', some e⟩)
      | .ok db' =>
        let after := opt.sendEv (.versionApply noCurrentMig.version noCurrentMig.source
          current.version current.source false true false false)
        let (fv, r) := upToNoVersioningLoop fails opt version current.version db' rest
        (fv, ⟨before ++ after ++ r.trace, r.db, r.err⟩)

/-- `upToNoVersioning` (part_001): applies up migrations up to, and
including, the target version, with no ledger bookkeeping. -/
def upToNoVersioning (fails : String → Bool) (db : DB) (migrations : Migrations)
    (version : Int) (opt : Options) : Int × R :=
  upToNoVersioningLoop fails opt version 0 db migrations

/-- The missing-migrations loop of `upWithMissing` (part_001 689-732):
applies each missing unit, re-reads the current ledger version, and aborts
with a consistency error on mismatch.  Returns the trace, state, the
updated applied-version lookup, the running `cMigration`, and how the loop
exited. -/
def missingLoop (fails : String → Bool) (opt : Options) (lookup : List Int)
    (cMig : Migration) (db : DB) :
    Migrations → Trace × DB × List Int × Migration × LoopExit
  | [] => ([], db, lookup, cMig, .fallthrough)
  | missing :: rest =>
    let before := opt.sendEv (.versionApply cMig.version cMig.source
      missing.version missing.source true false true false)
    match missing.UpWithProvider fails db with
    | .error (e, db') => (before, db', lookup, cMig, .earlyErr e)
    | .ok db' =>
      let after := opt.sendEv (.versionApply cMig.version cMig.source
        missing.version missing.source true true true false)
      if opt.applyUpByOne then (before ++ after, db', lookup, missing, .earlyOk)
      else
        let current := GetDBVersion db'
        if current == missing.version then
          let (t, db2, lk, cm, ex) :=
            missingLoop fails opt (missing.version :: lookup) missing db' rest
          (before ++ after ++ t, db2, lk, cm, ex)
        else
          (before ++ after, db', lookup, missing,
            .earlyErr (.missingMismatch current missing.version))

/-- The second loop of `upWithMissing` (part_001 737-772): applies every
collected unit whose version is not in the applied-version lookup, in
collection order. -/
def foundLoop (fails : String → Bool) (opt : Options) (lookup : List Int)
    (cMig : Migration) (db : DB) : Migrations → Trace × DB × Migration × LoopExit
  | [] => ([], db, cMig, .fallthrough)
  | found :: rest =>
    if lookup.contains found.version then foundLoop fails opt lookup found db rest
    else
      let before := opt.sendEv (.versionApply cMig.version cMig.source
        found.version found.source false false true false)
      match found.UpWithProvider fails db with
      | .error (e, db') => (before, db', cMig, .earlyErr e)
      | .ok db' =>
        let after := opt.sendEv (.versionApply cMig.version cMig.source
          found.version found.source false true true false)
        if opt.applyUpByOne then (before ++ after, db', found, .earlyOk)
        else
          let (t, db2, cm, ex) := foundLoop fails opt lookup found db' rest
          (before ++ after ++ t, db2, cm, ex)

/-- `upWithMissing` (part_001 651-790). -/
def upWithMissing (fails : String → Bool) (db : DB)
    (missingMigrations foundMigrations dbMigrations : Migrations)
    (opt : Options) : R :=
  let lookup := dbMigrations.map (·.version)
  let current := GetDBVersion db
  let cMig := (foundMigrations.CurrentAt current).getD noCurrentMig
  let total : Int :=
    if opt.applyUpByOne then 1
    else foundMigrations.NumberOfMigrations current false + missingMigrations.length
  let countEv := opt.sendEv (.versionCount cMig.version cMig.source total)
  match missingLoop fails opt lookup cMig db missingMigrations with
  | (t, db1, _, _, .earlyOk) => ⟨countEv ++ t, db1, none⟩
  | (t, db1, _, _, .earlyErr e) => ⟨countEv ++ t, db1, some e⟩
  | (t, db1, lk1, cm1, .fallthrough) =>
    match foundLoop fails opt lk1 cm1 db1 foundMigrations with
    | (t2, db2, _, .earlyOk) => ⟨countEv ++ t ++ t2, db2, none⟩
    | (t2, db2, _, .earlyErr e) => ⟨countEv ++ t ++ t2, db2, some e⟩
    | (t2, db2, _, .fallthrough) =>
      ⟨countEv ++ t ++ t2, db2,
        if opt.applyUpByOne then some .noNextVersion else none⟩

/-- The main apply loop of `UpTo` (part_001 549-600): fetch the current
version, find the next unit, emit the before/after event pair around its
application, and stop on exhaustion (distinguishing single-step mode).  The
loop terminates because every applied unit strictly raises the current
version; `fuel` bounds the iterations. -/
def upLoop (fails : String → Bool) (found : Migrations) (opt : Options)
    (sendTotal : Bool) : Nat → DB → R
  | 0, db => ⟨[], db, some .outOfFuel⟩
  | fuel+1, db =>
    let current := GetDBVersion db
    let cMig := (found.CurrentAt current).getD noCurrentMig
    let countTrace :=
      if sendTotal then
        opt.sendEv (.versionCount cMig.version cMig.source
          (found.NumberOfMigrations current false))
      else []
    match found.NextAfter current with
    | none => ⟨countTrace, db, if opt.applyUpByOne then some .noNextVersion else none⟩
    | some next =>
      let before := opt.sendEv (.versionApply cMig.version cMig.source
        next.version next.source false false true false)
      match next.UpWithProvider fails db with
      | .error (e, db') => ⟨countTrace ++ before, db', some e⟩
      | .ok db' =>
        let after := opt.sendEv (.versionApply cMig.version cMig.source
          next.version next.source false true true false)
        if opt.applyUpByOne then ⟨countTrace ++ before ++ after, db', none⟩
        else
          let r := upLoop fails found opt false fuel db'
          ⟨countTrace ++ before ++ after ++ r.trace, r.db, r.err⟩

/-- The body of `Provider.UpTo` (part_001 467-612), before the deferred
channel close. -/
def UpToBody (fails : String → Bool) (all : Migrations) (version : Int)
    (opt : Options) (db : DB) : R :=
  let foundMigrations := CollectMigrations all minVersion version
  if opt.sequentialVersionsOnly && !(foundMigrations.timestamped).isEmpty then
    ⟨[], db, some (.timestampVersionsExist foundMigrations.timestamped)⟩
  else if opt.noVersioning then
    match foundMigrations with
    | [] => ⟨opt.sendEv (.versionCount (-1) "" 0), db, none⟩
    | f0 :: _ =>
      let version' := if opt.applyUpByOne then f0.version else version
      let total : Int := if opt.applyUpByOne then 1 else foundMigrations.length
      let countEv := opt.sendEv (.versionCount (-1) "" total)
      let (_, r) := upToNoVersioning fails db foundMigrations version' opt
      ⟨countEv ++ r.trace, r.db, r.err⟩
  else
    let (_, db1) := EnsureDBVersion db
    let (dbMigrations, db2) := listAllDBVersions db1
    match findMissingMigrations dbMigrations foundMigrations with
    | none => ⟨[], db2, some .indexOutOfRange⟩
    | some missingMigrations =>
      if !missingMigrations.isEmpty && !opt.allowMissing then
        ⟨[], db2, some (MissingMigrationsErrFromMigrations missingMigrations)⟩
      else if opt.allowMissing then
        upWithMissing fails db2 missingMigrations foundMigrations dbMigrations opt
      else
        upLoop fails foundMigrations opt true (foundMigrations.length + 1) db2

/-- `Provider.UpTo` (part_001): the body followed by the deferred channel
close (`defer close(options.eventsChannel)` runs last on every path). -/
def UpTo (fails : String → Bool) (all : Migrations) (version : Int)
    (opt : Options) (db : DB) : R :=
  let r := UpToBody fails all version opt db
  ⟨r.trace ++ opt.closeOp, r.db, r.err⟩

/-- `Provider.Up`: `UpTo` with the maximal target version. -/
def Up (fails : String → Bool) (all : Migrations) (opt : Options) (db : DB) : R :=
  UpTo fails all maxVersion opt db

/-- `Provider.UpByOne`: `UpTo` with the maximal target and single-step mode. -/
def UpByOne (fails : String → Bool) (all : Migrations) (opt : Options) (db : DB) : R :=
  UpTo fails all maxVersion { opt with applyUpByOne := true } db

/-- Pairs every unit with its predecessor's version and source (the
`preV`/`preS` computation of `downToNoVersioning`; index 0 gets `(0, "")`). -/
def withPrev (ms : Migrations) : List (Migration × Int × String) :=
  ms.zip ((0, "") :: ms.map (fun m => (m.version, m.source)))

/-- The `finalVersion`/`finalI` search of `downToNoVersioning` (down.go
141-149): the highest index whose version is at or below the target,
defaulting to `(0, 0)`. -/
def finalOf (migrations : Migrations) (version : Int) : Int × Nat :=
  match (List.range migrations.length).reverse.find? (fun i =>
      match migrations.get? i with
      | some m => decide (m.version ≤ version)
      | none => false) with
  | some i => (((migrations.get? i).getD noCurrentMig).version, i)
  | none => (0, 0)

/-- The reverting loop of `downToNoVersioning` (down.go 157-186), running
over the units from the top of the sequence down to `finalI`, each applied
with `noVersioning` set and bracketed by before/after down events. -/
def downNoVersLoop (fails : String → Bool) (opt : Options) :
    List (Migration × Int × String) → DB → R
  | [], db => ⟨[], db, none⟩
  | (m, preV, preS) :: rest, db =>
    let m' := { m with noVersioning := true }
    let before := opt.sendEv (.versionApply m.version m.source preV preS
      false false false true)
    match m'.DownWithProvider fails db with
    | .error (e, db') => ⟨before, db', some e⟩
    | .ok db' =>
      let after := opt.sendEv (.versionApply m.version m.source preV preS
        false true false true)
      let r := downNoVersLoop fails opt rest db'
      ⟨before ++ after ++ r.trace, r.db, r.err⟩

/-- `downToNoVersioning` (down.go 130-191): applies down migrations down
to, but not including, the target version, with no ledger bookkeeping. -/
def downToNoVersioning (fails : String → Bool) (db : DB) (migrations : Migrations)
    (version : Int) (opt : Options) : R :=
  match migrations.LastM with
  | none => ⟨[], db, none⟩
  | some ver =>
    let (finalVersion, finalI) := finalOf migrations version
    let countEv := opt.sendEv (.versionCount ver.version ver.source
      (migrations.NumberOfMigrationsTo ver.version finalVersion))
    let r := downNoVersLoop fails opt (((withPrev migrations).drop finalI).reverse) db
    ⟨countEv ++ r.trace, r.db, r.err⟩

/-- The body of `Provider.Down` (down.go 15-74), before the deferred
channel close. -/
def DownBody (fails : String → Bool) (all : Migrations) (opt : Options)
    (db : DB) : R :=
  let migrations := CollectMigrations all minVersion maxVersion
  if opt.noVersioning then
    match migrations.getLast? with
    | none => ⟨[], db, none⟩
    | some lastM => downToNoVersioning fails db migrations (lastM.version - 1) opt
  else
    let currentVersion := GetDBVersion db
    match migrations.CurrentAt currentVersion with
    | none => ⟨[], db, some (.noCurrentMigration currentVersion)⟩
    | some current =>
      match migrations.PreviousBefore currentVersion with
      | none => ⟨[], db, some (.noPreviousMigration currentVersion)⟩
      | some previous =>
        let countEv := opt.sendEv (.versionCount current.version current.source 1)
        let before := opt.sendEv (.versionApply current.version current.source
          previous.version previous.source false false true true)
        match current.DownWithProvider fails db with
        | .error (e, db') => ⟨countEv ++ before, db', some e⟩
        | .ok db' =>
          let after := opt.sendEv (.versionApply current.version current.source
            previous.version previous.source false true true true)
          ⟨countEv ++ before ++ after, db', none⟩

/-- `Provider.Down` (down.go): the body followed by the deferred channel
close. -/
def Down (fails : String → Bool) (all : Migrations) (opt : Options) (db : DB) : R :=
  let r := DownBody fails all opt db
  ⟨r.trace ++ opt.closeOp, r.db, r.err⟩

/-- The reverting loop of `DownTo` (down.go 95-125): revert the unit at the
current version until the version floor or the target is reached. -/
def downToLoop (fails : String → Bool) (migrations : Migrations) (version : Int) :
    Nat → DB → R
  | 0, db => ⟨[], db, some .outOfFuel⟩
  | fuel+1, db =>
    let currentVersion := GetDBVersion db
    if currentVersion == 0 then ⟨[], db, none⟩
    else
      match migrations.CurrentAt currentVersion with
      | none => ⟨[], db, some (.noCurrentMigration currentVersion)⟩
      | some current =>
        if current.version ≤ version then ⟨[], db, none⟩
        else
          match current.DownWithProvider fails db with
          | .error (e, db') => ⟨[], db', some e⟩
          | .ok db' => downToLoop fails migrations version fuel db'

/-- `Provider.DownTo` (down.go 82-126).  Note: unlike `Down`, `UpTo` and
`Status`, the source calls `close(option.eventsChannel)` here directly, NOT
under `defer`, so the close happens before the work (and before any event
is sent by `downToNoVersioning`). -/
def DownTo (fails : String → Bool) (all : Migrations) (version : Int)
    (opt : Options) (db : DB) : R :=
  let closeNow := opt.closeOp
  let migrations := CollectMigrations all minVersion maxVersion
  if opt.noVersioning then
    let r := downToNoVersioning fails db migrations version opt
    ⟨closeNow ++ r.trace, r.db, r.err⟩
  else
    let r := downToLoop fails migrations version (migrations.length + 1) db
    ⟨closeNow ++ r.trace, r.db, r.err⟩

/-- The first-record-per-version scan of `dbMigrationsStatus` (part_000
55-66): rows arrive most recent first and the first record seen for each
version wins. -/
def dbStatusScan : List MigrationRecord → List (Int × Bool) → List (Int × Bool)
  | [], acc => acc
  | r :: rest, acc =>
    if (acc.map Prod.fst).contains r.versionID then dbStatusScan rest acc
    else dbStatusScan rest (acc ++ [(r.versionID, r.isApplied)])

/-- `dbMigrationsStatus` (part_000 43-69): queries all ledger rows; when
the query fails (ledger table absent) it returns an empty status map AND a
nil error. -/
def dbMigrationsStatus (db : DB) : List (Int × Bool) × Option GooseErr :=
  if !db.tableExists then ([], none)
  else (dbStatusScan db.ledger [], none)

/-- The reverting loop of `Reset` (part_000 31-38): reverts, from highest
version to lowest, every collected unit whose status is applied. -/
def resetLoop (fails : String → Bool) (statuses : List (Int × Bool)) :
    Migrations → DB → R
  | [], db => ⟨[], db, none⟩
  | m :: rest, db =>
    if (statuses.lookup m.version).getD false then
      match m.DownWithProvider fails db with
      | .error (e, db') => ⟨[], db', some e⟩
      | .ok db' => resetLoop fails statuses rest db'
    else resetLoop fails statuses rest db

/-- `Provider.Reset` (part_000 15-41). -/
def Reset (fails : String → Bool) (all : Migrations) (opt : Options) (db : DB) : R :=
  let migrations := CollectMigrations all minVersion maxVersion
  if opt.noVersioning then DownTo fails all minVersion opt db
  else
    let (statuses, _) := dbMigrationsStatus db
    resetLoop fails statuses ((sortByVersion migrations).reverse) db

/-- The latest-ledger-row query for one version (the dialect's
`migrationSQL`; `sql.ErrNoRows` is modelled by `none`). -/
def migrationQueryRow (db : DB) (v : Int) : Option (Nat × Bool) :=
  (db.ledger.find? (fun r => r.versionID == v)).map (fun r => (r.tstamp, r.isApplied))

/-- `eventsStatus` (status.go 107-154): reports one `StatusEvent` per
collected unit and closes its channel (deferred) afterwards.  In
no-versioning mode, or without a database handle, units are reported as
unversioned and the ledger is neither bootstrapped nor queried; otherwise
the ledger table is ensured first and each unit's latest ledger row is
looked up.  The second component records which versions were queried
against the ledger. -/
def eventsStatus (all : Migrations) (hasDB : Bool) (noVers : Bool) (db : DB) :
    Trace × List Int × DB × Option GooseErr :=
  let migrations := CollectMigrations all minVersion maxVersion
  if noVers || !hasDB then
    ((migrations.map (fun m => ChanOp.send (.statusEv m.source m.version false 0)))
        ++ [ChanOp.close], [], db, none)
  else
    let (_, db1) := EnsureDBVersion db
    let queries := migrations.map (·.version)
    let evs := migrations.map (fun m =>
      let appliedAt := match migrationQueryRow db1 m.version with
        | none => 0
        | some (t, _) => t
      ChanOp.send (.statusEv m.source m.version true appliedAt))
    (evs ++ [ChanOp.close], queries, db1, none)

/-! ## Observation helpers and concrete fixtures used by the theorems -/

def isSendOp : ChanOp → Bool
  | .send _ => true
  | .close => false

def sendAfterClose : Trace → Bool
  | [] => false
  | ChanOp.close :: rest => rest.any isSendOp || sendAfterClose rest
  | ChanOp.send _ :: rest => sendAfterClose rest

/-- All preconditions for one versioned up-apply to succeed against the
statement-failure oracle. -/
def upApplyOK (fails : String → Bool) (m : Migration) : Prop :=
  (∀ q ∈ m.upStatements, fails q = false) ∧
  fails (insertVersionStmt m.version) = false ∧
  m.noVersioning = false

/-- The ledger row inserted for version `v`. -/
def rowOf (m : Migration) : MigrationRecord :=
  { versionID := m.version, isApplied := true, tstamp := 1 }

instance (fails : String → Bool) (m : Migration) : Decidable (upApplyOK fails m) := by
  unfold upApplyOK; infer_instance

def mw1 : Migration := mkMigration 1 "001_a.sql" ["ca"] ["da"]

def mw2 : Migration := mkMigration 2 "002_b.sql" ["cb"] ["dbx"]

def mw3 : Migration := mkMigration 3 "003_c.sql" ["cc"] ["dc"]

def mw4 : Migration := mkMigration 4 "004_d.sql" ["cd"] ["dd"]

def mw5 : Migration := mkMigration 5 "005_e.sql" ["ce"] ["de"]

def dbKnown1235 : DB :=
  ⟨true, [⟨5,true,1⟩,⟨3,true,1⟩,⟨2,true,1⟩,⟨1,true,1⟩,⟨0,true,1⟩], [], []⟩

def dbKnown12350 : DB :=
  ⟨true, [⟨5,true,1⟩,⟨3,true,1⟩,⟨2,true,1⟩,⟨1,true,1⟩,⟨0,true,1⟩], [], []⟩

/-! ## Theorems -/

theorem execStatements_ok (fails : String → Bool) (qs : List String) (db : DB)
    (h : ∀ q ∈ qs, fails q = false) :
    execStatements fails db qs = .ok { db with data := db.data ++ qs } := by
  induction qs generalizing db with
  | nil => simp [execStatements]
  | cons q rest ih =>
    have hq : fails q = false := h q (by simp)
    simp only [execStatements, execData, hq, Bool.false_eq_true, if_false]
    rw [ih _ (fun q' hq' => h q' (by simp [hq']))]
    simp

theorem execStatements_error (fails : String → Bool) (qs : List String) (db : DB)
    (q : String) (h : execStatements fails db qs = .error q) :
    fails q = true ∧ q ∈ qs := by
  induction qs generalizing db with
  | nil => simp [execStatements] at h
  | cons p rest ih =>
    by_cases hp : fails p = true
    · simp only [execStatements, execData, hp, if_true] at h
      cases h
      exact ⟨hp, by simp⟩
    · simp only [execStatements, execData, hp] at h
      simp at hp
      simp only [hp, Bool.false_eq_true, if_false] at h
      obtain ⟨hf, hm⟩ := ih _ h
      exact ⟨hf, by simp [hm]⟩

theorem getDBVersionRows_cons_applied (v : Int) (t : Nat) (l : List MigrationRecord) :
    getDBVersionRows ({ versionID := v, isApplied := true, tstamp := t } :: l) [] = v := by
  simp [getDBVersionRows]

theorem UpWithProvider_ok (fails : String → Bool) (m : Migration) (db : DB)
    (hs : ∀ q ∈ m.upStatements, fails q = false)
    (hi : fails (insertVersionStmt m.version) = false)
    (hnv : m.noVersioning = false) :
    m.UpWithProvider fails db = .ok { db with
      data := db.data ++ m.upStatements,
      ledger := { versionID := m.version, isApplied := true, tstamp := 1 } :: db.ledger,
      oklog := db.oklog ++ [(m.version, true)] } := by
  unfold Migration.UpWithProvider Migration.runDir runSQLMigration
  cases htx : m.useTx <;>
    simp [htx, execStatements_ok fails _ _ hs, execInsertVersion, hi, hnv]

theorem UpWithProvider_noVers_ok (fails : String → Bool) (m : Migration) (db : DB)
    (hs : ∀ q ∈ m.upStatements, fails q = false) :
    Migration.UpWithProvider fails { m with noVersioning := true } db = .ok { db with
      data := db.data ++ m.upStatements,
      oklog := db.oklog ++ [(m.version, true)] } := by
  unfold Migration.UpWithProvider Migration.runDir runSQLMigration
  cases htx : m.useTx <;>
    simp [htx, execStatements_ok fails _ _ hs]

theorem DownWithProvider_ok (fails : String → Bool) (m : Migration) (db : DB)
    (hs : ∀ q ∈ m.downStatements, fails q = false)
    (hd : fails (deleteVersionStmt m.version) = false)
    (hnv : m.noVersioning = false) :
    m.DownWithProvider fails db = .ok { db with
      data := db.data ++ m.downStatements,
      ledger := db.ledger.filter (fun r => r.versionID ≠ m.version),
      oklog := db.oklog ++ [(m.version, false)] } := by
  unfold Migration.DownWithProvider Migration.runDir runSQLMigration
  cases htx : m.useTx <;>
    simp [htx, execStatements_ok fails _ _ hs, execDeleteVersion, hd, hnv]

/-- Claim C4: for a transactional SQL migration unit, all statements run in
order inside one transaction; any statement failure rolls the transaction
back (the returned state is the caller's unchanged state) and surfaces an
execution error naming the failing statement; on success, for a versioned
unit, the ledger-row insert (up) or delete (down) happens inside the same
transaction, so the data change and the ledger change commit or abort
together. -/
theorem C4_runSQLMigration_transactional (fails : String → Bool) (db : DB)
    (statements : List String) (v : Int) (direction : Bool) (noVers : Bool) :
    (∀ e db', runSQLMigration fails db statements true v direction noVers = .error (e, db') →
        db' = db)
    ∧ (∀ q, execStatements fails db statements = .error q →
        fails q = true ∧ q ∈ statements ∧
        runSQLMigration fails db statements true v direction noVers = .error (.sqlExec q, db))
    ∧ ((∀ q ∈ statements, fails q = false) → fails (insertVersionStmt v) = false →
        runSQLMigration fails db statements true v true false =
          .ok { db with data := db.data ++ statements,
                        ledger := { versionID := v, isApplied := true, tstamp := 1 } :: db.ledger })
    ∧ ((∀ q ∈ statements, fails q = false) → fails (deleteVersionStmt v) = false →
        runSQLMigration fails db statements true v false false =
          .ok { db with data := db.data ++ statements,
                        ledger := db.ledger.filter (fun r => r.versionID ≠ v) }) := by
  refine ⟨?_, ?_, ?_, ?_⟩
  · intro e db' h
    unfold runSQLMigration at h
    cases hex : execStatements fails db statements with
    | error q => simp [hex] at h; exact h.2.symm
    | ok tx =>
      simp only [hex, if_true] at h
      cases noVers with
      | true => simp at h
      | false =>
        cases direction with
        | true =>
          simp only [Bool.not_false, if_true] at h
          cases hins : execInsertVersion fails tx v with
          | none => simp [hins] at h; exact h.2.symm
          | some tx' => simp [hins] at h
        | false =>
          simp only [Bool.not_false, if_true] at h
          cases hdel : execDeleteVersion fails tx v with
          | none => simp [hdel] at h; exact h.2.symm
          | some tx' => simp [hdel] at h
  · intro q h
    obtain ⟨hf, hm⟩ := execStatements_error fails statements db q h
    exact ⟨hf, hm, by unfold runSQLMigration; simp [h]⟩
  · intro hs hi
    unfold runSQLMigration
    simp [execStatements_ok fails _ _ hs, execInsertVersion, hi]
  · intro hs hd
    unfold runSQLMigration
    simp [execStatements_ok fails _ _ hs, execDeleteVersion, hd]

theorem C4_witness :
    runSQLMigration (fun q => q == "bad") ⟨true, [], [], []⟩ ["s1"] true 7 true false =
      .ok ⟨true, [{ versionID := 7, isApplied := true, tstamp := 1 }], ["s1"], []⟩ :=
  (C4_runSQLMigration_transactional (fun q => q == "bad") ⟨true, [], [], []⟩ ["s1"] 7 true false).2.2.1
    (by decide) (by decide)

/-- Claim C9: `findMissingMigrations` unconditionally reads the last element
of its ledger-known list, so it is well-defined (`isSome`) exactly when the
ledger-known list is non-empty; on an empty list the access is out of
bounds (modelled by `none`) — no guarded branch exists. -/
theorem C9_findMissing_requires_nonempty (new : Migrations) :
    findMissingMigrations [] new = none ∧
    ∀ known : Migrations, known ≠ [] → (findMissingMigrations known new).isSome := by
  refine ⟨rfl, ?_⟩
  intro known hk
  unfold findMissingMigrations
  cases h : known.getLast? with
  | none => exact absurd (by simpa using h) hk
  | some m => simp

theorem C9_witness :
    findMissingMigrations [] [mkMigration 1 "a" [] []] = none ∧
    (findMissingMigrations [mkMigration 2 "b" [] []] [mkMigration 1 "a" [] []]).isSome := by
  refine ⟨(C9_findMissing_requires_nonempty [mkMigration 1 "a" [] []]).1, ?_⟩
  exact (C9_findMissing_requires_nonempty [mkMigration 1 "a" [] []]).2 _ (by decide)

theorem resetLoop_nil_statuses (fails : String → Bool) (ms : Migrations) (db : DB) :
    resetLoop fails [] ms db = ⟨[], db, none⟩ := by
  induction ms with
  | nil => rfl
  | cons m rest ih => simp [resetLoop, List.lookup, ih]

/-- Claim C10: when the ledger query fails during `Reset` (ledger table
absent), `dbMigrationsStatus` returns an empty status map together with a
nil error, so `Reset` reverts no migrations and returns success instead of
surfacing the query failure. -/
theorem C10_reset_swallows_query_failure (fails : String → Bool) (all : Migrations)
    (opt : Options) (db : DB)
    (htable : db.tableExists = false) (hnv : opt.noVersioning = false) :
    dbMigrationsStatus db = ([], none) ∧
    Reset fails all opt db = ⟨[], db, none⟩ := by
  refine ⟨by simp [dbMigrationsStatus, htable], ?_⟩
  simp [Reset, hnv, dbMigrationsStatus, htable, resetLoop_nil_statuses]

theorem C10_witness :
    dbMigrationsStatus ⟨false, [], [], []⟩ = ([], none) ∧
    Reset (fun _ => false) [mkMigration 1 "a" ["c"] ["d"]] {} ⟨false, [], [], []⟩ =
      ⟨[], ⟨false, [], [], []⟩, none⟩ :=
  C10_reset_swallows_query_failure (fun _ => false) [mkMigration 1 "a" ["c"] ["d"]] {}
    ⟨false, [], [], []⟩ rfl rfl

/-- Claim C5: the engine is supposed never to send on a closed sink and to
close it exactly once upon completion.  `DownTo` violates this: it closes
the events channel immediately (no `defer`), before `downToNoVersioning`
sends its events, so the produced channel-operation trace starts with the
close and has sends after it. -/
theorem C5_DownTo_closes_before_sending :
    (DownTo (fun _ => false) [mkMigration 1 "001_a.sql" ["ca"] ["da"]] 0
      { noVersioning := true, hasEventsChannel := true } ⟨false, [], [], []⟩).trace.head? =
        some ChanOp.close ∧
    sendAfterClose (DownTo (fun _ => false) [mkMigration 1 "001_a.sql" ["ca"] ["da"]] 0
      { noVersioning := true, hasEventsChannel := true } ⟨false, [], [], []⟩).trace = true := by
  decide

/-- Claim C8: `Status` (via `eventsStatus`) against a pristine database
first creates the ledger table, then reports every collected unit as
pending with a zero-value applied-at timestamp and returns success; in
no-versioning mode, or with no database handle, it reports every collected
unit as unversioned and performs no ledger lookup (the query log is empty
and the state is untouched). -/
theorem C8_status (all : Migrations) (db : DB)
    (hpos : ∀ m ∈ all, 0 < m.version) (htable : db.tableExists = false) :
    (eventsStatus all true false db =
      ((CollectMigrations all minVersion maxVersion).map
          (fun m => ChanOp.send (.statusEv m.source m.version true 0)) ++ [ChanOp.close],
        (CollectMigrations all minVersion maxVersion).map (·.version),
        createVersionTable db, none))
    ∧ (∀ (hasDB : Bool) (db' : DB),
        eventsStatus all hasDB true db' =
          ((CollectMigrations all minVersion maxVersion).map
              (fun m => ChanOp.send (.statusEv m.source m.version false 0)) ++ [ChanOp.close],
            [], db', none))
    ∧ (∀ (noVers : Bool) (db' : DB),
        eventsStatus all false noVers db' =
          ((CollectMigrations all minVersion maxVersion).map
              (fun m => ChanOp.send (.statusEv m.source m.version false 0)) ++ [ChanOp.close],
            [], db', none)) := by
  refine ⟨?_, ?_, ?_⟩
  · have hq : ∀ m ∈ CollectMigrations all minVersion maxVersion,
        migrationQueryRow (createVersionTable db) m.version = none := by
      intro m hm
      have hma : m ∈ all := (List.mem_filter.mp hm).1
      have hv : 0 < m.version := hpos m hma
      simp only [migrationQueryRow, createVersionTable, List.find?, Option.map_eq_none]
      split
      · next h => exfalso; simp at h; omega
      · rfl
    simp only [eventsStatus, EnsureDBVersion, htable, Bool.not_true, Bool.or_false,
      Bool.false_eq_true, if_false]
    refine Prod.ext ?_ rfl
    simp only
    congr 1
    exact List.map_congr_left (fun m hm => by rw [hq m hm])
  · intro hasDB db'
    unfold eventsStatus
    simp
  · intro noVers db'
    unfold eventsStatus
    simp

theorem upToNoVersioningLoop_ok (fails : String → Bool) (opt : Options) (version : Int)
    (ms : Migrations) :
    ∀ (finalV : Int) (db : DB),
    (∀ m ∈ ms, m.version ≤ version) →
    (∀ m ∈ ms, ∀ q ∈ m.upStatements, fails q = false) →
    ∃ fv r, upToNoVersioningLoop fails opt version finalV db ms = (fv, r) ∧
      r.db = { db with
        data := db.data ++ ms.flatMap (·.upStatements),
        oklog := db.oklog ++ ms.map (fun m => (m.version, true)) } ∧
      r.err = none := by
  induction ms with
  | nil =>
    intro finalV db _ _
    exact ⟨finalV, ⟨[], db, none⟩, by simp [upToNoVersioningLoop], by simp, rfl⟩
  | cons m rest ih =>
    intro finalV db hle hs
    have hm : ¬ version < m.version := not_lt.mpr (hle m (by simp))
    obtain ⟨fv, r, hrec, hdb, herr⟩ := ih m.version
      { db with data := db.data ++ m.upStatements, oklog := db.oklog ++ [(m.version, true)] }
      (fun x hx => hle x (by simp [hx])) (fun x hx => hs x (by simp [hx]))
    refine ⟨fv, ⟨opt.sendEv (.versionApply noCurrentMig.version noCurrentMig.source
        m.version m.source false false false false) ++
      opt.sendEv (.versionApply noCurrentMig.version noCurrentMig.source
        m.version m.source false true false false) ++ r.trace, r.db, r.err⟩, ?_, ?_, herr⟩
    · simp only [upToNoVersioningLoop, hm, if_false,
        UpWithProvider_noVers_ok fails m db (hs m (by simp)), hrec]
    · simp only [hdb]
      simp

/-- Claim C6: in no-versioning mode, `Up`/`UpTo` apply every collected unit
(at most the target version, ascending collection order) unconditionally,
and never touch the ledger: the final state keeps the initial ledger and
table flag, while the data trail and unit log grow by exactly the collected
units in order. -/
theorem C6_up_noVersioning_frame (fails : String → Bool) (all : Migrations)
    (version : Int) (opt : Options) (db : DB)
    (hnv : opt.noVersioning = true) (hseq : opt.sequentialVersionsOnly = false)
    (hone : opt.applyUpByOne = false)
    (hsort : all.Sorted versionLE)
    (hs : ∀ m ∈ CollectMigrations all minVersion version, ∀ q ∈ m.upStatements, fails q = false) :
    (CollectMigrations all minVersion version).Sorted versionLE ∧
    (UpTo fails all version opt db).db = { db with
      data := db.data ++ (CollectMigrations all minVersion version).flatMap (·.upStatements),
      oklog := db.oklog ++
        (CollectMigrations all minVersion version).map (fun m => (m.version, true)) } ∧
    (UpTo fails all version opt db).err = none := by
  refine ⟨hsort.filter _, ?_⟩
  have hle : ∀ m ∈ CollectMigrations all minVersion version, m.version ≤ version := by
    intro m hm
    have := (List.mem_filter.mp hm).2
    simp at this
    exact_mod_cast this.2
  unfold UpTo UpToBody
  cases hcol : CollectMigrations all minVersion version with
  | nil => simp [hnv, hseq]
  | cons f0 frest =>
    rw [hcol] at hle hs
    obtain ⟨fv, r, hrec, hdb, herr⟩ :=
      upToNoVersioningLoop_ok fails opt version (f0 :: frest) 0 db hle hs
    simp [hnv, hseq, hone, upToNoVersioning, hrec, hdb, herr]

theorem CurrentAt_version {ms : Migrations} {v : Int} {c : Migration}
    (h : ms.CurrentAt v = some c) : c.version = v := by
  have := List.find?_some h
  simpa using this

/-- Claim C7: in versioned mode, `Down` reverts exactly the single collected
unit whose version equals the current ledger version, and fails, reverting
nothing, when no collected unit matches the current ledger version or when
no collected unit with a strictly smaller version exists. -/
theorem C7_down_versioned (fails : String → Bool) (all : Migrations) (opt : Options)
    (db : DB) (hnv : opt.noVersioning = false) :
    ((CollectMigrations all minVersion maxVersion).CurrentAt (GetDBVersion db) = none →
      Down fails all opt db = ⟨opt.closeOp, db, some (.noCurrentMigration (GetDBVersion db))⟩)
    ∧ (∀ c, (CollectMigrations all minVersion maxVersion).CurrentAt (GetDBVersion db) = some c →
        (CollectMigrations all minVersion maxVersion).PreviousBefore (GetDBVersion db) = none →
        Down fails all opt db = ⟨opt.closeOp, db, some (.noPreviousMigration (GetDBVersion db))⟩)
    ∧ (∀ c p, (CollectMigrations all minVersion maxVersion).CurrentAt (GetDBVersion db) = some c →
        (CollectMigrations all minVersion maxVersion).PreviousBefore (GetDBVersion db) = some p →
        (∀ q ∈ c.downStatements, fails q = false) →
        fails (deleteVersionStmt c.version) = false →
        c.noVersioning = false →
        c.version = GetDBVersion db ∧
        Down fails all opt db =
          ⟨opt.sendEv (.versionCount c.version c.source 1) ++
            opt.sendEv (.versionApply c.version c.source p.version p.source false false true true) ++
            opt.sendEv (.versionApply c.version c.source p.version p.source false true true true) ++
            opt.closeOp,
          { db with
            data := db.data ++ c.downStatements,
            ledger := db.ledger.filter (fun r => r.versionID ≠ c.version),
            oklog := db.oklog ++ [(c.version, false)] },
          none⟩) := by
  refine ⟨?_, ?_, ?_⟩
  · intro hcur
    unfold Down DownBody
    simp [hnv, hcur]
  · intro c hcur hprev
    unfold Down DownBody
    simp [hnv, hcur, hprev]
  · intro c p hcur hprev hds hdel hcnv
    refine ⟨CurrentAt_version hcur, ?_⟩
    unfold Down DownBody
    simp [hnv, hcur, hprev, DownWithProvider_ok fails c db hds hdel hcnv]

theorem mem_sortByVersion {a : Migration} {l : Migrations} :
    a ∈ sortByVersion l ↔ a ∈ l :=
  (List.perm_insertionSort versionLE l).mem_iff

theorem sortByVersion_sorted (l : Migrations) : (sortByVersion l).Sorted versionLE :=
  List.sorted_insertionSort versionLE l

theorem sorted_getLast_max :
    ∀ (l : Migrations), l.Sorted versionLE → ∀ y, l.getLast? = some y →
      ∀ x ∈ l, x.version ≤ y.version
  | [], _, y, hy, x, hx => by simp at hx
  | [a], _, y, hy, x, hx => by
    simp at hy hx
    subst hy; subst hx; exact le_refl _
  | a :: b :: t, hs, y, hy, x, hx => by
    rw [List.getLast?_cons_cons] at hy
    rcases List.mem_cons.mp hx with rfl | hx'
    · exact (List.pairwise_cons.mp hs).1 y (List.mem_of_mem_getLast? hy)
    · exact sorted_getLast_max (b :: t) (List.pairwise_cons.mp hs).2 y hy x hx'

/-- Claim C1: in a versioned `UpTo`/`Up` run, a collected migration is
classified as missing exactly when its version is strictly less than the
maximum ledger-known version and is not itself ledger-known; if missing
migrations exist and allow-missing is not set, the call returns the
structured error enumerating every missing version with its source, the
database state is returned unchanged and no migration is applied. -/
theorem C1_missing_detection_blocks (fails : String → Bool) (all : Migrations)
    (version : Int) (opt : Options) (db : DB)
    (hnv : opt.noVersioning = false) (hseq : opt.sequentialVersionsOnly = false)
    (ham : opt.allowMissing = false)
    (htable : db.tableExists = true) (hld : db.ledger ≠ []) :
    ∃ missing,
      findMissingMigrations (listAllDBVersions db).1
          (CollectMigrations all minVersion version) = some missing ∧
      (∃ mx, mx ∈ ((listAllDBVersions db).1.map (·.version)) ∧
        (∀ w ∈ ((listAllDBVersions db).1.map (·.version)), w ≤ mx) ∧
        (∀ m, m ∈ missing ↔
          m ∈ CollectMigrations all minVersion version ∧ m.version < mx ∧
            ¬ m.version ∈ ((listAllDBVersions db).1.map (·.version)))) ∧
      (missing ≠ [] →
        UpTo fails all version opt db =
          ⟨opt.closeOp, db, some (.missingMigrationsErr
            (missing.map (fun m => (m.version, m.source))))⟩) := by
  have hlist : listAllDBVersions db
      = (sortByVersion (db.ledger.map (fun r => mkMigration r.versionID "" [] [])), db) := by
    simp [listAllDBVersions, htable]
  have hlen : (listAllDBVersions db).1.length = db.ledger.length := by
    rw [hlist]
    have h1 := (List.perm_insertionSort versionLE
      (db.ledger.map (fun r => mkMigration r.versionID "" [] []))).length_eq
    simp only [sortByVersion]
    rw [h1, List.length_map]
  have hne : (listAllDBVersions db).1 ≠ [] := by
    intro h
    rw [h] at hlen
    exact hld (List.length_eq_zero.mp hlen.symm)
  obtain ⟨lastK, hlast⟩ := Option.isSome_iff_exists.mp (List.getLast?_isSome.mpr hne)
  obtain ⟨missing, hfind⟩ : ∃ missing,
      findMissingMigrations (listAllDBVersions db).1
        (CollectMigrations all minVersion version) = some missing := by
    unfold findMissingMigrations
    rw [hlast]
    exact ⟨_, rfl⟩
  have hchar : missing = sortByVersion ((CollectMigrations all minVersion version).filter
      (fun m => !(((listAllDBVersions db).1.map (·.version)).contains m.version)
        && decide (m.version < lastK.version))) := by
    unfold findMissingMigrations at hfind
    rw [hlast] at hfind
    simpa using hfind.symm
  refine ⟨missing, hfind, ⟨lastK.version, ?_, ?_, ?_⟩, ?_⟩
  · exact List.mem_map_of_mem _ (List.mem_of_mem_getLast? hlast)
  · intro w hw
    obtain ⟨u, hu, rfl⟩ := List.mem_map.mp hw
    have hsorted : (listAllDBVersions db).1.Sorted versionLE := by
      rw [hlist]; exact sortByVersion_sorted _
    exact sorted_getLast_max _ hsorted lastK hlast u hu
  · intro m
    rw [hchar, mem_sortByVersion, List.mem_filter]
    simp only [Bool.and_eq_true, Bool.not_eq_true', decide_eq_true_eq, and_assoc]
    simp only [List.mem_map, not_exists, not_and]
    constructor
    · rintro ⟨h1, h2, h3⟩
      refine ⟨h1, h3, ?_⟩
      simpa using h2
    · rintro ⟨h1, h2, h3⟩
      refine ⟨h1, ?_, h2⟩
      simpa using h3
  · intro hmiss
    have hne' : missing.isEmpty = false := by
      cases missing with
      | nil => exact absurd rfl hmiss
      | cons a l => rfl
    unfold UpTo UpToBody
    simp only [hseq, hnv, ham, Bool.false_and, Bool.not_false, Bool.false_eq_true,
      if_false, EnsureDBVersion, htable, if_true]
    rw [hlist] at hfind ⊢
    simp only at hfind ⊢
    rw [hfind]
    simp [hne', MissingMigrationsErrFromMigrations]

theorem foundLoop_skip_all (fails : String → Bool) (opt : Options) (lookup : List Int) :
    ∀ (ms : Migrations) (cMig : Migration) (db : DB),
    (∀ f ∈ ms, lookup.contains f.version = true) →
    ∃ cm, foundLoop fails opt lookup cMig db ms = ([], db, cm, .fallthrough)
  | [], cMig, db, _ => ⟨cMig, rfl⟩
  | f :: rest, cMig, db, h => by
    obtain ⟨cm, hrec⟩ := foundLoop_skip_all fails opt lookup rest f db
      (fun x hx => h x (by simp [hx]))
    exact ⟨cm, by simp only [foundLoop, h f (by simp), if_true, hrec]⟩

/-- Claim C3: when the apply loop exhausts the collected sequence, `UpTo`
and `Up` return nil (success) while single-step mode (`UpByOne`) returns
the distinguished no-next-version error, both on the normal path and on the
allow-missing path; the state is unchanged. -/
theorem C3_exhaustion_signals (fails : String → Bool) (all : Migrations)
    (version : Int) (opt : Options) (db : DB)
    (hnv : opt.noVersioning = false) (hseq : opt.sequentialVersionsOnly = false)
    (htable : db.tableExists = true)
    (hmiss : findMissingMigrations (listAllDBVersions db).1
        (CollectMigrations all minVersion version) = some []) :
    (opt.allowMissing = false →
      (CollectMigrations all minVersion version).NextAfter (GetDBVersion db) = none →
      (UpTo fails all version opt db).db = db ∧
      (UpTo fails all version opt db).err =
        (if opt.applyUpByOne then some GooseErr.noNextVersion else none))
    ∧ (opt.allowMissing = true →
      (∀ f ∈ CollectMigrations all minVersion version,
        f.version ∈ (listAllDBVersions db).1.map (·.version)) →
      (UpTo fails all version opt db).db = db ∧
      (UpTo fails all version opt db).err =
        (if opt.applyUpByOne then some GooseErr.noNextVersion else none)) := by
  have hlist : listAllDBVersions db
      = (sortByVersion (db.ledger.map (fun r => mkMigration r.versionID "" [] [])), db) := by
    simp [listAllDBVersions, htable]
  rw [hlist] at hmiss
  simp only at hmiss
  constructor
  · intro ham hnext
    unfold UpTo UpToBody
    simp only [hseq, hnv, ham, EnsureDBVersion, htable, hlist, hmiss, Bool.false_and,
      Bool.not_false, Bool.false_eq_true, if_false, if_true, List.isEmpty_nil,
      Bool.not_true, Bool.and_false, Bool.and_true]
    rw [upLoop]
    rw [hnext]
    simp
  · intro ham hknown
    rw [hlist] at hknown
    simp only at hknown
    obtain ⟨cm, hskip⟩ := foundLoop_skip_all fails opt
      ((sortByVersion (db.ledger.map (fun r => mkMigration r.versionID "" [] []))).map (·.version))
      (CollectMigrations all minVersion version)
      (((CollectMigrations all minVersion version).CurrentAt (GetDBVersion db)).getD noCurrentMig)
      db
      (fun f hf => by
        have := hknown f hf
        simp only [List.contains_iff_exists_mem_beq]
        exact ⟨f.version, by simpa using this, by simp⟩)
    unfold UpTo UpToBody upWithMissing
    simp only [hseq, hnv, ham, EnsureDBVersion, htable, hlist, hmiss, Bool.false_and,
      Bool.not_false, Bool.false_eq_true, if_false, if_true, List.isEmpty_nil,
      Bool.not_true, Bool.and_false, missingLoop, hskip]
    exact ⟨trivial, trivial⟩

theorem missingLoop_all_ok (fails : String → Bool) (opt : Options)
    (hone : opt.applyUpByOne = false) :
    ∀ (ms : Migrations) (lookup : List Int) (cMig : Migration) (db : DB),
    (∀ m ∈ ms, upApplyOK fails m) →
    ∃ tr cm, missingLoop fails opt lookup cMig db ms =
      (tr, { db with
        data := db.data ++ ms.flatMap (·.upStatements),
        ledger := (ms.map rowOf).reverse ++ db.ledger,
        oklog := db.oklog ++ ms.map (fun m => (m.version, true)) },
        (ms.map (·.version)).reverse ++ lookup, cm, .fallthrough)
  | [], lookup, cMig, db, _ => ⟨[], cMig, by simp [missingLoop]⟩
  | m :: rest, lookup, cMig, db, h => by
    obtain ⟨h1, h2, h3⟩ := h m (by simp)
    have happ := UpWithProvider_ok fails m db h1 h2 h3
    obtain ⟨tr, cm, hrec⟩ := missingLoop_all_ok fails opt hone rest (m.version :: lookup) m
      { db with data := db.data ++ m.upStatements,
                ledger := { versionID := m.version, isApplied := true, tstamp := 1 } :: db.ledger,
                oklog := db.oklog ++ [(m.version, true)] }
      (fun x hx => h x (by simp [hx]))
    refine ⟨opt.sendEv (.versionApply cMig.version cMig.source m.version m.source true false true false) ++
      opt.sendEv (.versionApply cMig.version cMig.source m.version m.source true true true false) ++ tr,
      cm, ?_⟩
    simp only [missingLoop, happ, hone, Bool.false_eq_true, if_false, GetDBVersion,
      getDBVersionRows_cons_applied, beq_self_eq_true, if_true, hrec]
    simp [rowOf]

theorem foundLoop_all_ok (fails : String → Bool) (opt : Options)
    (hone : opt.applyUpByOne = false) :
    ∀ (ms : Migrations) (lookup : List Int) (cMig : Migration) (db : DB),
    (∀ f ∈ ms, upApplyOK fails f) →
    ∃ tr cm, foundLoop fails opt lookup cMig db ms =
      (tr, { db with
        data := db.data ++
          ((ms.filter (fun f => !(lookup.contains f.version))).flatMap (·.upStatements)),
        ledger := ((ms.filter (fun f => !(lookup.contains f.version))).map rowOf).reverse
          ++ db.ledger,
        oklog := db.oklog ++
          (ms.filter (fun f => !(lookup.contains f.version))).map (fun m => (m.version, true)) },
      cm, .fallthrough)
  | [], lookup, cMig, db, _ => ⟨[], cMig, by simp [foundLoop]⟩
  | f :: rest, lookup, cMig, db, h => by
    cases hc : lookup.contains f.version with
    | true =>
      obtain ⟨tr, cm, hrec⟩ := foundLoop_all_ok fails opt hone rest lookup f db
        (fun x hx => h x (by simp [hx]))
      refine ⟨tr, cm, ?_⟩
      simp only [foundLoop, hc, if_true, hrec, List.filter_cons, Bool.not_true,
        Bool.false_eq_true, if_false]
    | false =>
      obtain ⟨h1, h2, h3⟩ := h f (by simp)
      have happ := UpWithProvider_ok fails f db h1 h2 h3
      obtain ⟨tr, cm, hrec⟩ := foundLoop_all_ok fails opt hone rest lookup f
        { db with data := db.data ++ f.upStatements,
                  ledger := { versionID := f.version, isApplied := true, tstamp := 1 } :: db.ledger,
                  oklog := db.oklog ++ [(f.version, true)] }
        (fun x hx => h x (by simp [hx]))
      refine ⟨opt.sendEv (.versionApply cMig.version cMig.source f.version f.source false false true false) ++
        opt.sendEv (.versionApply cMig.version cMig.source f.version f.source false true true false) ++ tr,
        cm, ?_⟩
      simp only [foundLoop, hc, Bool.false_eq_true, if_false, happ, hone, hrec,
        List.filter_cons, Bool.not_false, if_true]
      simp [rowOf]

/-- Claim C2: with allow-missing set, `upWithMissing` applies all missing
units first, in strictly ascending version order (`findMissingMigrations`
output is strictly ascending for duplicate-free input), each as an
independent apply whose post-apply ledger re-read must equal the version
just applied; a mismatch after a successful apply aborts immediately with
the fatal consistency error and nothing further is applied; afterwards it
applies every remaining collected unit whose version is not ledger-known,
in collection order. -/
theorem C2_upWithMissing_order (fails : String → Bool) (opt : Options)
    (hone : opt.applyUpByOne = false) :
    (∀ (known new l : Migrations), new.Pairwise (fun a b => a.version ≠ b.version) →
      findMissingMigrations known new = some l →
      l.Pairwise (fun a b => a.version < b.version))
    ∧ (∀ (db : DB) (missing found dbM : Migrations),
      (∀ m ∈ missing, upApplyOK fails m) →
      (∀ f ∈ found, upApplyOK fails f) →
      (upWithMissing fails db missing found dbM opt).err = none ∧
      (upWithMissing fails db missing found dbM opt).db.oklog =
        db.oklog ++ missing.map (fun m => (m.version, true)) ++
          (found.filter (fun f =>
            decide (¬(f.version ∈ dbM.map (·.version) ∨
              f.version ∈ missing.map (·.version))))).map (fun m => (m.version, true)))
    ∧ (∀ (lookup : List Int) (cMig : Migration) (db db' : DB) (m : Migration)
        (rest : Migrations),
      m.UpWithProvider fails db = .ok db' → GetDBVersion db' ≠ m.version →
      missingLoop fails opt lookup cMig db (m :: rest) =
        (opt.sendEv (.versionApply cMig.version cMig.source m.version m.source true false true false) ++
          opt.sendEv (.versionApply cMig.version cMig.source m.version m.source true true true false),
          db', lookup, m, .earlyErr (.missingMismatch (GetDBVersion db') m.version)))
    ∧ (∀ (db : DB) (missing found dbM : Migrations) (t : Trace) (db1 : DB)
        (lk : List Int) (cm : Migration) (e : GooseErr),
      missingLoop fails opt (dbM.map (·.version))
          ((found.CurrentAt (GetDBVersion db)).getD noCurrentMig) db missing =
        (t, db1, lk, cm, .earlyErr e) →
      (upWithMissing fails db missing found dbM opt).err = some e ∧
      (upWithMissing fails db missing found dbM opt).db = db1) := by
  refine ⟨?_, ?_, ?_, ?_⟩
  · intro known new l hnd hfind
    unfold findMissingMigrations at hfind
    cases hlast : known.getLast? with
    | none => rw [hlast] at hfind; exact absurd hfind (by simp)
    | some lastK =>
      rw [hlast] at hfind
      simp only [Option.some_inj] at hfind
      subst hfind
      have hsor : List.Pairwise versionLE _ := sortByVersion_sorted
        (new.filter (fun m => !((known.map (·.version)).contains m.version)
          && decide (m.version < lastK.version)))
      have hneq : (new.filter (fun m => !((known.map (·.version)).contains m.version)
          && decide (m.version < lastK.version))).Pairwise (fun a b => a.version ≠ b.version) :=
        hnd.sublist (List.filter_sublist _)
      have hneq' := ((List.perm_insertionSort versionLE _).pairwise_iff
        (fun {a b} (h : a.version ≠ b.version) => h.symm)).mpr hneq
      exact (hsor.and hneq').imp (fun {a b} h => lt_of_le_of_ne h.1 h.2)
  · intro db missing found dbM hm hf
    obtain ⟨tr, cm, hml⟩ := missingLoop_all_ok fails opt hone missing (dbM.map (·.version))
      ((found.CurrentAt (GetDBVersion db)).getD noCurrentMig) db hm
    obtain ⟨tr2, cm2, hfl⟩ := foundLoop_all_ok fails opt hone found
      ((missing.map (·.version)).reverse ++ dbM.map (·.version)) cm
      { db with
        data := db.data ++ missing.flatMap (·.upStatements),
        ledger := (missing.map rowOf).reverse ++ db.ledger,
        oklog := db.oklog ++ missing.map (fun m => (m.version, true)) } hf
    have hfilt : found.filter (fun f =>
        !(((missing.map (·.version)).reverse ++ dbM.map (·.version)).contains f.version)) =
        found.filter (fun f =>
          decide (¬(f.version ∈ dbM.map (·.version) ∨ f.version ∈ missing.map (·.version)))) := by
      apply List.filter_congr
      intro f _
      apply Bool.eq_iff_iff.mpr
      simp [List.contains_iff_exists_mem_beq, or_comm]
    simp only [upWithMissing, hml, hfl, hone, Bool.false_eq_true, if_false]
    refine ⟨trivial, ?_⟩
    simp only [hfilt]
  · intro lookup cMig db db' m rest happ hne
    have hbeq : (GetDBVersion db' == m.version) = false := by
      simpa using hne
    simp only [missingLoop, happ, hone, Bool.false_eq_true, if_false, hbeq]
  · intro db missing found dbM t db1 lk cm e hml
    simp only [upWithMissing, hml]
    exact ⟨trivial, trivial⟩

theorem C1_witness :
    UpTo (fun _ => false) [mw1,mw2,mw3,mw4,mw5] 100 {} dbKnown1235 =
      ⟨[], dbKnown1235, some (.missingMigrationsErr [(4, "004_d.sql")])⟩ := by
  obtain ⟨missing, hfind, _, hblock⟩ := C1_missing_detection_blocks (fun _ => false)
    [mw1,mw2,mw3,mw4,mw5] 100 {} dbKnown1235 rfl rfl rfl rfl (by decide)
  have hm : missing = [mw4] := by
    have h2 : findMissingMigrations (listAllDBVersions dbKnown1235).1
        (CollectMigrations [mw1,mw2,mw3,mw4,mw5] minVersion 100) = some [mw4] := by decide
    rw [hfind] at h2
    exact Option.some_inj.mp h2
  subst hm
  have := hblock (by decide)
  simpa using this

theorem C3_witness :
    (UpTo (fun _ => false) [mw1] 100 {} ⟨true, [⟨1,true,1⟩,⟨0,true,1⟩], [], []⟩).err = none ∧
    (UpTo (fun _ => false) [mw1] 100 { applyUpByOne := true }
      ⟨true, [⟨1,true,1⟩,⟨0,true,1⟩], [], []⟩).err = some GooseErr.noNextVersion ∧
    (UpTo (fun _ => false) [mw1] 100 { allowMissing := true }
      ⟨true, [⟨1,true,1⟩,⟨0,true,1⟩], [], []⟩).err = none ∧
    (UpTo (fun _ => false) [mw1] 100 { allowMissing := true, applyUpByOne := true }
      ⟨true, [⟨1,true,1⟩,⟨0,true,1⟩], [], []⟩).err = some GooseErr.noNextVersion := by
  refine ⟨?_, ?_, ?_, ?_⟩
  · exact ((C3_exhaustion_signals (fun _ => false) [mw1] 100 {} _ rfl rfl rfl
      (by decide)).1 rfl (by decide)).2
  · exact ((C3_exhaustion_signals (fun _ => false) [mw1] 100 { applyUpByOne := true } _
      rfl rfl rfl (by decide)).1 rfl (by decide)).2
  · exact ((C3_exhaustion_signals (fun _ => false) [mw1] 100 { allowMissing := true } _
      rfl rfl rfl (by decide)).2 rfl (by decide)).2
  · exact ((C3_exhaustion_signals (fun _ => false) [mw1] 100
      { allowMissing := true, applyUpByOne := true } _ rfl rfl rfl (by decide)).2 rfl
      (by decide)).2

theorem C6_witness :
    (UpTo (fun _ => false) [mw1,mw2] 100 { noVersioning := true } ⟨false, [], [], []⟩).db =
      ⟨false, [], ["ca","cb"], [(1,true),(2,true)]⟩ ∧
    (UpTo (fun _ => false) [mw1,mw2] 100 { noVersioning := true } ⟨false, [], [], []⟩).err =
      none := by
  have h := C6_up_noVersioning_frame (fun _ => false) [mw1,mw2] 100 { noVersioning := true }
    ⟨false, [], [], []⟩ rfl rfl rfl (by decide) (by decide)
  refine ⟨?_, h.2.2⟩
  rw [h.2.1]
  decide

theorem C7_witness :
    Down (fun _ => false) [mw1,mw2] {} ⟨true, [⟨2,true,1⟩,⟨1,true,1⟩,⟨0,true,1⟩], [], []⟩ =
      ⟨[], ⟨true, [⟨1,true,1⟩,⟨0,true,1⟩], ["dbx"], [(2,false)]⟩, none⟩ := by
  have h := ((C7_down_versioned (fun _ => false) [mw1,mw2] {}
    ⟨true, [⟨2,true,1⟩,⟨1,true,1⟩,⟨0,true,1⟩], [], []⟩ rfl).2.2 mw2 mw1
    (by decide) (by decide) (by decide) (by decide) rfl).2
  rw [h]
  decide

theorem C8_witness :
    eventsStatus [mw1] true false ⟨false, [], [], []⟩ =
      ([ChanOp.send (.statusEv "001_a.sql" 1 true 0), ChanOp.close], [1],
        ⟨true, [⟨0,true,1⟩], [], []⟩, none) := by
  have h := (C8_status [mw1] ⟨false, [], [], []⟩ (by decide) rfl).1
  rw [h]
  decide

theorem C2_witness :
    ((upWithMissing (fun _ => false) dbKnown12350 [mw4] [mw1,mw2,mw3,mw4,mw5]
        ((listAllDBVersions dbKnown12350).1) { allowMissing := true }).err = none ∧
      (upWithMissing (fun _ => false) dbKnown12350 [mw4] [mw1,mw2,mw3,mw4,mw5]
        ((listAllDBVersions dbKnown12350).1) { allowMissing := true }).db.oklog = [(4, true)]) ∧
    missingLoop (fun _ => false) { allowMissing := true } [] noCurrentMig dbKnown12350
        [{ mw4 with noVersioning := true }] =
      ([], { dbKnown12350 with data := ["cd"], oklog := [(4, true)] }, [],
        { mw4 with noVersioning := true },
        .earlyErr (.missingMismatch 5 4)) := by
  obtain ⟨horder, happly, habort, hprop⟩ :=
    C2_upWithMissing_order (fun _ => false) { allowMissing := true } rfl
  refine ⟨?_, ?_⟩
  · have h := happly dbKnown12350 [mw4] [mw1,mw2,mw3,mw4,mw5]
      ((listAllDBVersions dbKnown12350).1) (by decide) (by decide)
    refine ⟨h.1, ?_⟩
    rw [h.2]
    decide
  · have h := habort [] noCurrentMig dbKnown12350
      { dbKnown12350 with data := ["cd"], oklog := [(4, true)] }
      { mw4 with noVersioning := true } [] rfl (by decide)
    rw [h]
    decide

end Goose
